import Mathlib

/-!
Verification of the `eraser` crate: type-erased owning containers
(`ErasedBox`, `ThinErasedBox`) and non-owning erased pointers
(`ErasedPtr`, `ErasedNonNull`).

The Rust source is shallowly embedded:
* machine layout arithmetic (`Layout`, `alignUp`, `Layout.fromSizeAlign`,
  `Layout.padToAlign`) is over `Nat`, on a 64-bit model
  (pointers and `usize` have size 8, alignment 8, `isize::MAX = 2^63 - 1`);
* the heap is an association list from nonzero addresses to block contents,
  threaded explicitly through every operation, together with a trace of the
  layouts passed to `dealloc` and a counter of value-destructor invocations;
* an erased type `T` is modelled by `ETy`: the size/alignment of its pointer
  metadata `T::Metadata` and its runtime size/alignment as functions of a
  metadata value; a value of `T` is a metadata value plus a byte list.
-/

/-- Round `n` up to the next multiple of `a` (Rust's layout rounding,
`(n + a - 1) / a * a`). For `a = 0` this returns `0`; all uses have `0 < a`. -/
def alignUp (n a : Nat) : Nat :=
  ((n + a - 1) / a) * a

/-- Rust's `usize::is_power_of_two`: exactly one bit set. -/
def isPow2 (n : Nat) : Bool :=
  n != 0 && (n &&& (n - 1)) == 0

/-- `isize::MAX` on the 64-bit model. -/
def isizeMax : Nat := 2 ^ 63 - 1

/-- `core::alloc::Layout`: a size and an alignment in bytes. -/
structure Layout where
  size : Nat
  align : Nat
deriving DecidableEq, Repr

/-- `Layout::from_size_align`: requires the alignment to be a power of two and
the size, once rounded up to the alignment, to fit in `isize`. -/
def Layout.fromSizeAlign (size align : Nat) : Option Layout :=
  if isPow2 align ∧ size ≤ isizeMax - (align - 1) then
    some { size := size, align := align }
  else
    none

/-- `Layout::pad_to_align`: round the size up to a multiple of the alignment. -/
def Layout.padToAlign (l : Layout) : Layout :=
  { size := alignUp l.size l.align, align := l.align }

/-! ### Arithmetic facts about `alignUp` -/

theorem le_alignUp {a : Nat} (h0 : 0 < a) (n : Nat) : n ≤ alignUp n a := by
  by_contra hlt
  push_neg at hlt
  unfold alignUp at hlt
  have hn : 1 ≤ n := by
    rcases Nat.eq_zero_or_pos n with rfl | h
    · exact absurd hlt (Nat.not_lt_zero _)
    · exact h
  have h2 : ((n + a - 1) / a) * a ≤ n - 1 := Nat.le_sub_one_of_lt hlt
  have h3 : ((n + a - 1) / a) * a + a ≤ (n - 1) + a := Nat.add_le_add_right h2 a
  have h4 : (n - 1) + a = n + a - 1 := by omega
  have h5 : ((n + a - 1) / a + 1) * a ≤ n + a - 1 := by
    rw [Nat.add_mul, Nat.one_mul]
    exact h4 ▸ h3
  have h6 : (n + a - 1) / a + 1 ≤ (n + a - 1) / a :=
    (Nat.le_div_iff_mul_le h0).mpr h5
  exact Nat.not_succ_le_self _ h6

theorem alignUp_dvd (n a : Nat) : a ∣ alignUp n a :=
  ⟨(n + a - 1) / a, by unfold alignUp; exact Nat.mul_comm _ _⟩

theorem alignUp_le {a m : Nat} (h0 : 0 < a) (hd : a ∣ m) {n : Nat} (hnm : n ≤ m) :
    alignUp n a ≤ m := by
  obtain ⟨k, rfl⟩ := hd
  unfold alignUp
  have h2 : n + a - 1 ≤ a * k + (a - 1) := by
    have := Nat.add_le_add_right hnm a
    omega
  have h3 : (n + a - 1) / a ≤ (a * k + (a - 1)) / a :=
    Nat.div_le_div_right h2
  have h4 : (a * k + (a - 1)) / a = k := by
    rw [Nat.mul_add_div h0, Nat.div_eq_of_lt (Nat.sub_lt h0 Nat.one_pos), Nat.add_zero]
  have h5 : (n + a - 1) / a ≤ k := h4 ▸ h3
  calc ((n + a - 1) / a) * a ≤ k * a := Nat.mul_le_mul_right a h5
    _ = a * k := Nat.mul_comm k a

theorem alignUp_eq_of_dvd {a n : Nat} (h0 : 0 < a) (hd : a ∣ n) : alignUp n a = n :=
  Nat.le_antisymm (alignUp_le h0 hd le_rfl) (le_alignUp h0 n)

theorem alignUp_le_alignUp_of_dvd {a b : Nat} (h0b : 0 < b) (hab : a ∣ b) (n : Nat) :
    alignUp n a ≤ alignUp n b := by
  have h0a : 0 < a := by
    rcases Nat.eq_zero_or_pos a with rfl | h
    · rw [Nat.eq_zero_of_zero_dvd hab] at h0b
      exact absurd h0b (Nat.lt_irrefl 0)
    · exact h
  exact alignUp_le h0a (hab.trans (alignUp_dvd n b)) (le_alignUp h0b n)

theorem alignUp_alignUp {a b : Nat} (h0a : 0 < a) (h0b : 0 < b) (hab : a ∣ b) (n : Nat) :
    alignUp (alignUp n a) b = alignUp n b := by
  apply Nat.le_antisymm
  · exact alignUp_le h0b (alignUp_dvd n b) (alignUp_le_alignUp_of_dvd h0b hab n)
  · exact alignUp_le h0b (alignUp_dvd (alignUp n a) b)
      ((le_alignUp h0a n).trans (le_alignUp h0b (alignUp n a)))

theorem alignUp_add_right_of_dvd {a s : Nat} (h0 : 0 < a) (hd : a ∣ s) (n : Nat) :
    alignUp (n + s) a = alignUp n a + s := by
  apply Nat.le_antisymm
  · exact alignUp_le h0 (Nat.dvd_add (alignUp_dvd n a) hd)
      (Nat.add_le_add_right (le_alignUp h0 n) s)
  · have h1 : n + s ≤ alignUp (n + s) a := le_alignUp h0 (n + s)
    have h2 : a ∣ alignUp (n + s) a - s := Nat.dvd_sub' (alignUp_dvd (n + s) a) hd
    have h3 : n ≤ alignUp (n + s) a - s := by omega
    have h4 : alignUp n a ≤ alignUp (n + s) a - s := alignUp_le h0 h2 h3
    omega

/-! ### The thin container's combined-layout computation

`ThinErasedBox` stores everything in one allocation laid out as the
`#[repr(C)]` struct `InnerData<T> { common: CommonInnerData, meta: T::Metadata,
data: T }`.  `CommonInnerData` holds one function pointer, so on the 64-bit
model it has size 8 and alignment 8. -/

/-- `mem::size_of::<CommonInnerData>()`: one function pointer. -/
def commonSize : Nat := 8

/-- `mem::align_of::<CommonInnerData>()`: one function pointer. -/
def commonAlign : Nat := 8

/-- The layout `InnerData::<T>::alloc` computes and allocates, as a function of
the descriptor (metadata) size/alignment and the value's runtime
size/alignment: sum the three sizes, take the maximum of the three alignments,
build the layout (checked by `Layout::from_size_align`), and pad the size to
the alignment.  `none` models the `expect` panic on an invalid size/align
pair. -/
def innerAllocLayout (ms ma vs va : Nat) : Option Layout :=
  (Layout.fromSizeAlign (commonSize + ms + vs) (max (max commonAlign ma) va)).map
    Layout.padToAlign

/-- The same computation without the `from_size_align` checks, used by the
heap-level model of the construction path (the panic on a failed check is
fatal, per the error model, and is not a reachable heap state). -/
def thinAllocLayout (ms ma vs va : Nat) : Layout :=
  { size := alignUp (commonSize + ms + vs) (max (max commonAlign ma) va),
    align := max (max commonAlign ma) va }

/-- The size the combined record actually needs (`#[repr(C)]` rules, which is
what `Layout::for_value` on an `InnerData<T>` returns): the descriptor is
placed after the header at the next offset aligned to the descriptor's own
alignment, the value at the next offset aligned to the value's alignment,
and the total is rounded up to the record's (maximum) alignment. -/
def innerRecordSize (ms ma vs va : Nat) : Nat :=
  alignUp (alignUp (alignUp commonSize ma + ms) va + vs) (max (max commonAlign ma) va)

/-- Modelled from the spec: "the combined record's size is the sum of header
size, descriptor size, and the value's runtime size, and its alignment is the
maximum of the three; the result is rounded up to a multiple of the chosen
alignment".  Stated over the code's header (`CommonInnerData`), for comparison
with `innerAllocLayout`. -/
def specCombinedLayout (ms ma vs va : Nat) : Layout :=
  { size := alignUp (commonSize + ms + vs) (max (max commonAlign ma) va),
    align := max (max commonAlign ma) va }

/-! ### Data model: erased types, values, blocks, heap, allocator state -/

/-- The shape of an erased Rust type `T: ?Sized + Pointee`: the layout of its
pointer metadata `T::Metadata`, and its runtime size and alignment
(`size_of_val` / `align_of_val`) as functions of a metadata value.  A value of
the type is a metadata value (a `Nat` code: `()` for sized types, an element
count for slices, a vtable address for trait objects) plus its raw bytes. -/
structure ETy where
  metaSize : Nat
  metaAlign : Nat
  sizeOfVal : Nat → Nat
  alignOfVal : Nat → Nat

/-- Contents of one heap allocation. -/
inductive BlockVal where
  /-- A plain value allocation (the pointee of a `Box<T>`). -/
  | raw (bytes : List Nat)
  /-- A one-element `Box<T::Metadata>` descriptor cell. -/
  | cell (meta : Nat)
  /-- A combined `InnerData<T>` allocation: the finalizer function pointer
  (identified by the type it was specialized to), the stored metadata, and the
  value's bytes. -/
  | record (ty : ETy) (meta : Nat) (data : List Nat)

/-- Overwrite the value bytes of a block (a write through a reified `&mut T`). -/
def BlockVal.withBytes : BlockVal → List Nat → BlockVal
  | .raw _, w => .raw w
  | .cell m, _ => .cell m
  | .record t m _, w => .record t m w

/-- Look up the block at an address. -/
def lookupB : List (Nat × BlockVal) → Nat → Option BlockVal
  | [], _ => none
  | (n, v) :: ps, a => if n = a then some v else lookupB ps a

/-- Remove the block at an address. -/
def removeB : List (Nat × BlockVal) → Nat → List (Nat × BlockVal)
  | [], _ => []
  | (n, v) :: ps, a => if n = a then removeB ps a else (n, v) :: removeB ps a

/-- Overwrite the value bytes of the block at an address. -/
def setB : List (Nat × BlockVal) → Nat → List Nat → List (Nat × BlockVal)
  | [], _, _ => []
  | (n, v) :: ps, a, w =>
    if n = a then (n, v.withBytes w) :: setB ps a w else (n, v) :: setB ps a w

/-- The heap: a bump counter for fresh addresses and the live allocations.
Addresses handed out are `next + 1, next + 2, ...`, so they are never null. -/
structure Heap where
  next : Nat
  blocks : List (Nat × BlockVal)

def Heap.read (h : Heap) (a : Nat) : Option BlockVal :=
  lookupB h.blocks a

def Heap.alloc (h : Heap) (v : BlockVal) : Heap × Nat :=
  (⟨h.next + 1, (h.next + 1, v) :: h.blocks⟩, h.next + 1)

def Heap.free (h : Heap) (a : Nat) : Heap :=
  ⟨h.next, removeB h.blocks a⟩

def Heap.setBytes (h : Heap) (a : Nat) (w : List Nat) : Heap :=
  ⟨h.next, setB h.blocks a w⟩

/-- A well-formed heap: every live address is nonzero and at most `next`. -/
def Heap.wf (h : Heap) : Prop :=
  ∀ p ∈ h.blocks, 0 < p.1 ∧ p.1 ≤ h.next

/-- The whole mutable state: the heap, the trace of layouts passed to
`alloc::dealloc`, and the number of value-destructor (finalizer) runs. -/
structure St where
  heap : Heap
  deallocs : List Layout
  finalized : Nat

/-- `alloc::alloc(layout)`, with the block contents it is about to hold. -/
def St.alloc (s : St) (_l : Layout) (v : BlockVal) : St × Nat :=
  let r := s.heap.alloc v
  ({ s with heap := r.1 }, r.2)

/-- `alloc::dealloc(ptr, layout)`. -/
def St.dealloc (s : St) (a : Nat) (l : Layout) : St :=
  { s with heap := s.heap.free a, deallocs := l :: s.deallocs }

/-- Run the erased value's own destructor once. -/
def St.runDtor (s : St) : St :=
  { s with finalized := s.finalized + 1 }

/-! ### `Box<T>` primitives -/

/-- A `Box<T>` (or the raw parts a `Box` decomposes into): the data pointer and
the pointer metadata. -/
structure BoxVal where
  ptr : Nat
  meta : Nat
deriving DecidableEq, Repr

/-- `Box::new(val)` (and, for unsized `T`, any externally built `Box<T>`):
allocate the pointee and return the (data, metadata) pair. -/
def boxNew (τ : ETy) (meta : Nat) (bytes : List Nat) (s : St) : BoxVal × St :=
  let r := s.alloc { size := τ.sizeOfVal meta, align := τ.alignOfVal meta } (.raw bytes)
  ({ ptr := r.2, meta := meta }, r.1)

/-- The value a `Box<T>` observably holds: its metadata is carried in the
pointer; its bytes are read through the data pointer (`size_of_val` many).
A zero-size value has no bytes to read. -/
def BoxVal.value (τ : ETy) (bv : BoxVal) (h : Heap) : Option (List Nat) :=
  if τ.sizeOfVal bv.meta = 0 then some []
  else
    match h.read bv.ptr with
    | some (.raw bs) => some (bs.take (τ.sizeOfVal bv.meta))
    | _ => none

/-- Dropping a `Box<T>`: run `T`'s destructor, then free the pointee
allocation with `Layout::for_value`. -/
def BoxVal.drop (τ : ETy) (bv : BoxVal) (s : St) : St :=
  (s.runDtor).dealloc bv.ptr { size := τ.sizeOfVal bv.meta, align := τ.alignOfVal bv.meta }

/-! ### `ErasedBox` (ebox.rs): the wide owning container -/

/-- `ErasedBox`: data pointer, pointer to the separately allocated metadata
cell, and the `drop` function pointer (identified by the type it was
specialized to, `drop_erased::<T>`). -/
structure ErasedBox where
  data : Nat
  meta : Nat
  dropTy : ETy

/-- `ErasedBox::new` / `From<Box<T>>` / `ErasedBox::from_raw`: decompose the
box into (data, metadata), `Box::new` the metadata into its own cell, record
`drop_erased::<T>`. -/
def ErasedBox.new (τ : ETy) (meta : Nat) (bytes : List Nat) (s : St) : ErasedBox × St :=
  let p := boxNew τ meta bytes s
  let q := (p.2).alloc { size := τ.metaSize, align := τ.metaAlign } (.cell meta)
  ({ data := p.1.ptr, meta := q.2, dropTy := τ }, q.1)

/-- `ErasedBox::raw_ptr`. -/
def ErasedBox.raw_ptr (b : ErasedBox) : Nat := b.data

/-- `ErasedBox::reify_ptr::<T>`: rebuild the typed pointer from the data
pointer and the metadata read out of the cell. -/
def ErasedBox.reify_ptr (b : ErasedBox) (s : St) : Option (Nat × Nat) :=
  match s.heap.read b.meta with
  | some (.cell m) => some (b.data, m)
  | _ => none

/-- `ErasedBox::reify_ref::<T>`: the value observed through `reify_ptr`
(metadata plus the `size_of_val` bytes behind the data pointer). -/
def ErasedBox.reify_ref (τ : ETy) (b : ErasedBox) (s : St) : Option (Nat × List Nat) :=
  match s.heap.read b.meta, s.heap.read b.data with
  | some (.cell m), some (.raw bs) => some (m, bs.take (τ.sizeOfVal m))
  | _, _ => none

/-- A write through `ErasedBox::reify_mut::<T>` (`*b.reify_mut() = newVal`):
overwrite the bytes behind the data pointer. -/
def ErasedBox.write (b : ErasedBox) (w : List Nat) (s : St) : St :=
  { s with heap := s.heap.setBytes b.data w }

/-- `ErasedBox::reify_box::<T>`: read the metadata back, free the metadata
cell (`Box::from_raw(meta_ptr)` is dropped), rebuild `Box<T>` from the data
pointer, and `mem::forget` the handle so its own `Drop` never runs. -/
def ErasedBox.reify_box (τ : ETy) (b : ErasedBox) (s : St) : BoxVal × St :=
  let m := match s.heap.read b.meta with
    | some (.cell m) => m
    | _ => 0
  ({ ptr := b.data, meta := m },
    s.dealloc b.meta { size := τ.metaSize, align := τ.metaAlign })

/-- `impl Drop for ErasedBox`: calls `drop_erased::<T>`, which reifies the box
(freeing the metadata cell) and then lets the resulting `Box<T>` drop (running
`T`'s destructor and freeing the data allocation). -/
def ErasedBox.dropHandle (b : ErasedBox) (s : St) : St :=
  let r := ErasedBox.reify_box b.dropTy b s
  BoxVal.drop b.dropTy r.1 r.2

/-! ### `ErasedPtr` and `ErasedNonNull` (eptr.rs): non-owning erased pointers -/

/-- `ErasedPtr`: possibly-null data pointer, non-null pointer to the metadata
cell, and `drop_impl::<T>` (identified by the type it was specialized to). -/
structure ErasedPtr where
  data : Nat
  meta : Nat
  dropTy : ETy

/-- `ErasedPtr::new::<T>(val)`: split the pointer into (data, metadata) and
`Box::new` the metadata into a fresh cell.  The data pointer is stored as is,
null (`0`) or not. -/
def ErasedPtr.new (τ : ETy) (addr : Nat) (mv : Nat) (s : St) : ErasedPtr × St :=
  let r := s.alloc { size := τ.metaSize, align := τ.metaAlign } (.cell mv)
  ({ data := addr, meta := r.2, dropTy := τ }, r.1)

/-- `ErasedPtr::raw_ptr`. -/
def ErasedPtr.raw_ptr (p : ErasedPtr) : Nat := p.data

/-- `ErasedPtr::raw_ptr_mut`. -/
def ErasedPtr.raw_ptr_mut (p : ErasedPtr) : Nat := p.data

/-- `ErasedPtr::reify_ptr::<T>`: `ptr::from_raw_parts(data, *meta)`. -/
def ErasedPtr.reify_ptr (p : ErasedPtr) (s : St) : Option (Nat × Nat) :=
  match s.heap.read p.meta with
  | some (.cell m) => some (p.data, m)
  | _ => none

/-- `ErasedPtr::reify_ptr_mut::<T>`: `ptr::from_raw_parts_mut(data, *meta)`. -/
def ErasedPtr.reify_ptr_mut (p : ErasedPtr) (s : St) : Option (Nat × Nat) :=
  match s.heap.read p.meta with
  | some (.cell m) => some (p.data, m)
  | _ => none

/-- `impl Drop for ErasedPtr`: `drop_impl::<T>` frees the metadata cell via
`Box::from_raw`; the referenced value is not touched and no value destructor
runs (`T::Metadata` has no destructor). -/
def ErasedPtr.dropHandle (p : ErasedPtr) (s : St) : St :=
  s.dealloc p.meta { size := p.dropTy.metaSize, align := p.dropTy.metaAlign }

/-- `ErasedNonNull`: like `ErasedPtr` but the data pointer came from a
`NonNull<T>`, so the caller guarantees it is nonzero. -/
structure ErasedNonNull where
  data : Nat
  meta : Nat
  dropTy : ETy

/-- `ErasedNonNull::new::<T>(val)`. -/
def ErasedNonNull.new (τ : ETy) (addr : Nat) (mv : Nat) (s : St) : ErasedNonNull × St :=
  let r := s.alloc { size := τ.metaSize, align := τ.metaAlign } (.cell mv)
  ({ data := addr, meta := r.2, dropTy := τ }, r.1)

/-- `ErasedNonNull::reify_ptr::<T>`: `NonNull::from_raw_parts(data, *meta)`. -/
def ErasedNonNull.reify_ptr (p : ErasedNonNull) (s : St) : Option (Nat × Nat) :=
  match s.heap.read p.meta with
  | some (.cell m) => some (p.data, m)
  | _ => none

/-- `impl Drop for ErasedNonNull`: same `drop_impl::<T>` as `ErasedPtr`. -/
def ErasedNonNull.dropHandle (p : ErasedNonNull) (s : St) : St :=
  s.dealloc p.meta { size := p.dropTy.metaSize, align := p.dropTy.metaAlign }

/-! ### `ThinErasedBox` (thin_ebox.rs): the thin owning container -/

/-- The combined layout `InnerData::<T>::alloc` computes for a value of type
`τ` with metadata `meta`. -/
def ETy.allocLayout (τ : ETy) (meta : Nat) : Layout :=
  thinAllocLayout τ.metaSize τ.metaAlign (τ.sizeOfVal meta) (τ.alignOfVal meta)

/-- `Layout::for_value` of the stored `InnerData<T>` record (its `#[repr(C)]`
layout), used when the combined allocation is deallocated. -/
def ETy.recordLayout (τ : ETy) (meta : Nat) : Layout :=
  { size := innerRecordSize τ.metaSize τ.metaAlign (τ.sizeOfVal meta) (τ.alignOfVal meta),
    align := max (max commonAlign τ.metaAlign) (τ.alignOfVal meta) }

/-- `InnerData::new(val: Box<T>)`: allocate the combined record with the
computed layout, write the finalizer (`CommonInnerData::new::<T>`) and the
metadata into the header, copy the value's `size_of_val` bytes out of the
source box, then deallocate the source allocation — without running the
value's destructor — unless its layout is zero-size. -/
def InnerData.new (τ : ETy) (bv : BoxVal) (s : St) : Nat × St :=
  let vs := τ.sizeOfVal bv.meta
  let srcBytes := match s.heap.read bv.ptr with
    | some (.raw bs) => bs
    | _ => []
  let r := s.alloc (τ.allocLayout bv.meta) (.record τ bv.meta (srcBytes.take vs))
  let bLayout : Layout := { size := vs, align := τ.alignOfVal bv.meta }
  let s2 := if bLayout.size ≠ 0 then r.1.dealloc bv.ptr bLayout else r.1
  (r.2, s2)

/-- `ThinErasedBox`: a single pointer to an `InnerData<T>` allocation. -/
structure ThinErasedBox where
  inner : Nat

/-- `ThinErasedBox::new` / `From<Box<T>>`: box the value, then relocate it
into a combined `InnerData<T>` allocation. -/
def ThinErasedBox.new (τ : ETy) (meta : Nat) (bytes : List Nat) (s : St) :
    ThinErasedBox × St :=
  let p := boxNew τ meta bytes s
  let q := InnerData.new τ p.1 p.2
  ({ inner := q.1 }, q.2)

/-- `ThinErasedBox::reify_ptr::<T>` / `inner_data`: read the metadata out of
the header and form the typed pointer over the trailing value region; the
observable typed pointer is (metadata, value bytes location).  Modelled as the
pair of the metadata and the `size_of_val` bytes it points at. -/
def ThinErasedBox.reify_ref (τ : ETy) (tb : ThinErasedBox) (s : St) :
    Option (Nat × List Nat) :=
  match s.heap.read tb.inner with
  | some (.record _ m data) => some (m, data.take (τ.sizeOfVal m))
  | _ => none

/-- A write through `ThinErasedBox::reify_mut::<T>`: overwrite the value
region of the combined record. -/
def ThinErasedBox.write (tb : ThinErasedBox) (w : List Nat) (s : St) : St :=
  { s with heap := s.heap.setBytes tb.inner w }

/-- `ThinErasedBox::reify_box::<T>`: read metadata and value, allocate a fresh
block for the value — or, if the value's layout is zero-size, substitute the
alignment as a non-null dangling pointer instead of calling the allocator —
copy the value bytes over, free the combined allocation without running the
value's destructor, and `mem::forget` the handle. -/
def ThinErasedBox.reify_box (τ : ETy) (tb : ThinErasedBox) (s : St) :
    Option (BoxVal × St) :=
  match s.heap.read tb.inner with
  | some (.record _ m data) =>
    let vl : Layout := { size := τ.sizeOfVal m, align := τ.alignOfVal m }
    if vl.size ≠ 0 then
      let r := s.alloc vl (.raw (data.take vl.size))
      some ({ ptr := r.2, meta := m }, (r.1).dealloc tb.inner (τ.recordLayout m))
    else
      some ({ ptr := vl.align, meta := m }, s.dealloc tb.inner (τ.recordLayout m))
  | _ => none

/-- `impl Drop for ThinErasedBox`: read the finalizer out of the header and
invoke it; `drop_impl::<T>` rebuilds the `Box<InnerData<T>>`, whose drop runs
the value's destructor in place and frees the single combined allocation. -/
def ThinErasedBox.dropHandle (tb : ThinErasedBox) (s : St) : St :=
  match s.heap.read tb.inner with
  | some (.record τ m _) => (s.runDtor).dealloc tb.inner (τ.recordLayout m)
  | _ => s

/-! ### Heap lemmas -/

theorem lookupB_cons_self (n : Nat) (v : BlockVal) (ps : List (Nat × BlockVal)) :
    lookupB ((n, v) :: ps) n = some v := by
  simp [lookupB]

theorem lookupB_cons_ne {n a : Nat} (h : n ≠ a) (v : BlockVal)
    (ps : List (Nat × BlockVal)) : lookupB ((n, v) :: ps) a = lookupB ps a := by
  simp [lookupB, h]

theorem lookupB_removeB_self (l : List (Nat × BlockVal)) (a : Nat) :
    lookupB (removeB l a) a = none := by
  induction l with
  | nil => rfl
  | cons p ps ih =>
    obtain ⟨n, v⟩ := p
    by_cases h : n = a
    · simpa [removeB, h] using ih
    · simpa [removeB, lookupB, h] using ih

theorem lookupB_removeB_ne {a r : Nat} (h : a ≠ r) (l : List (Nat × BlockVal)) :
    lookupB (removeB l r) a = lookupB l a := by
  induction l with
  | nil => rfl
  | cons p ps ih =>
    obtain ⟨n, v⟩ := p
    by_cases hn : n = r
    · subst hn
      simpa [removeB, lookupB, Ne.symm h] using ih
    · by_cases hna : n = a
      · simp [removeB, lookupB, hn, hna, h]
      · simpa [removeB, lookupB, hn, hna] using ih

theorem lookupB_setB_ne {a w : Nat} (h : a ≠ w) (l : List (Nat × BlockVal))
    (bs : List Nat) : lookupB (setB l w bs) a = lookupB l a := by
  induction l with
  | nil => rfl
  | cons p ps ih =>
    obtain ⟨n, v⟩ := p
    by_cases hn : n = w
    · subst hn
      simpa [setB, lookupB, Ne.symm h] using ih
    · by_cases hna : n = a
      · simp [setB, lookupB, hn, hna, h]
      · simpa [setB, lookupB, hn, hna] using ih

theorem lookupB_none_of_big {l : List (Nat × BlockVal)} {n a : Nat}
    (hwf : ∀ p ∈ l, p.1 ≤ n) (ha : n < a) : lookupB l a = none := by
  induction l with
  | nil => rfl
  | cons p ps ih =>
    obtain ⟨m, v⟩ := p
    have hm : m ≤ n := (hwf (m, v) (List.mem_cons_self _ _))
    have hne : m ≠ a := by omega
    rw [lookupB_cons_ne hne]
    exact ih fun q hq => hwf q (List.mem_cons_of_mem _ hq)

/-! ### Concrete instances used by the witnesses -/

/-- A slice-of-`u32`-like erased type: metadata is the element count (a
`usize`, 8 bytes), the runtime size is 4 bytes per element, alignment 4. -/
def sliceTy : ETy :=
  { metaSize := 8, metaAlign := 8,
    sizeOfVal := fun n => 4 * n, alignOfVal := fun _ => 4 }

/-- A sized zero-size type (metadata `()`): size 0, alignment 1. -/
def zstTy : ETy :=
  { metaSize := 0, metaAlign := 1,
    sizeOfVal := fun _ => 0, alignOfVal := fun _ => 1 }

/-- The empty initial state. -/
def st0 : St := { heap := { next := 0, blocks := [] }, deallocs := [], finalized := 0 }

/-- A state whose heap already holds a raw block at address 1. -/
def st1 : St :=
  { heap := { next := 1, blocks := [(1, .raw [7, 7])] }, deallocs := [], finalized := 0 }

/-! ### Claims -/

/-- C4: `ThinErasedBox` construction computes the combined record's layout
generically on every call as: size equal to the sum of the header size, the
descriptor size, and the value's runtime size; alignment equal to the maximum
of the three alignments; with the size then rounded up to a multiple of the
chosen alignment.  Whenever the computation succeeds, its result is exactly
the layout the spec describes. -/
theorem c4_thin_layout_is_sum_max_rounded (ms ma vs va : Nat) (l : Layout)
    (h : innerAllocLayout ms ma vs va = some l) :
    l = specCombinedLayout ms ma vs va := by
  unfold innerAllocLayout Layout.fromSizeAlign at h
  split at h
  · rw [Option.map_some'] at h
    cases Option.some.inj h
    rfl
  · exact Option.noConfusion h

/-- C4 witness: at metadata layout (8, 8) and value layout (4, 4) the
computation succeeds and yields the sum/max/rounded layout (24, 8). -/
theorem c4_thin_layout_witness :
    innerAllocLayout 8 8 4 4 = some { size := 24, align := 8 } ∧
    ({ size := 24, align := 8 } : Layout) = specCombinedLayout 8 8 4 4 :=
  ⟨by decide, c4_thin_layout_is_sum_max_rounded 8 8 4 4 _ (by decide)⟩

/-- C2 counterexample: at descriptor layout (16, 16) and value layout (4, 4)
— the header being the code's (8, 8) function pointer — the summed-size/
maxed-alignment computation yields a 32-byte allocation, but the record with
the descriptor placed after the header (at its aligned offset) and the value
at the next offset aligned to the value's alignment needs 48 bytes: the
arithmetic under-counts the padding in front of the descriptor. -/
theorem c2_combined_layout_counterexample :
    innerAllocLayout 16 16 4 4 = some { size := 32, align := 16 } ∧
    (32 : Nat) < innerRecordSize 16 16 4 4 := by
  decide

/-- C2 (amended): whenever the descriptor's alignment divides the header's
alignment (8, a function pointer) — which holds for every instantiation the
code can produce, since Rust pointer metadata is `()`, `usize`, or a vtable
pointer, all of alignment at most 8 — and the value's runtime size is a
multiple of its alignment with the alignments compatible powers of two
(expressed by divisibility), the combined layout that `ThinErasedBox`
construction computes is at least as large as the record it must hold. -/
theorem c2_combined_layout_amended (ms ma vs va : Nat) (l : Layout)
    (h : innerAllocLayout ms ma vs va = some l)
    (hma : ma ∣ commonAlign) (hva : 0 < va) (hvs : va ∣ vs)
    (hcmp : va ∣ commonAlign ∨ commonAlign ∣ va) :
    innerRecordSize ms ma vs va ≤ l.size := by
  have hca : (0 : Nat) < commonAlign := by decide
  have hma0 : 0 < ma := by
    rcases Nat.eq_zero_or_pos ma with rfl | hp
    · rw [Nat.eq_zero_of_zero_dvd hma] at hca
      exact absurd hca (Nat.lt_irrefl 0)
    · exact hp
  have hsize : l.size = alignUp (commonSize + ms + vs) (max (max commonAlign ma) va) := by
    unfold innerAllocLayout Layout.fromSizeAlign at h
    split at h
    · rw [Option.map_some'] at h
      cases Option.some.inj h
      rfl
    · exact Option.noConfusion h
  have hmax1 : max commonAlign ma = commonAlign :=
    max_eq_left (Nat.le_of_dvd hca hma)
  have hms : ma ∣ commonSize := hma
  rw [hsize, hmax1]
  unfold innerRecordSize
  rw [hmax1, alignUp_eq_of_dvd hma0 hms,
    ← alignUp_add_right_of_dvd hva hvs (commonSize + ms)]
  rcases hcmp with hd | hd
  · have hmax2 : max commonAlign va = commonAlign :=
      max_eq_left (Nat.le_of_dvd hca hd)
    rw [hmax2, alignUp_alignUp hva hca hd]
  · have hmax2 : max commonAlign va = va :=
      max_eq_right (Nat.le_of_dvd hva hd)
    rw [hmax2, alignUp_alignUp hva hva dvd_rfl]

/-- C2 witness for the amended statement: descriptor (8, 8) (a `usize` /
vtable pointer), value (16, 16); the computed 32-byte layout exactly covers
the 32-byte record. -/
theorem c2_combined_layout_amended_witness :
    innerAllocLayout 8 8 16 16 = some { size := 32, align := 16 } ∧
    (8 : Nat) ∣ commonAlign ∧ (0 : Nat) < 16 ∧ (16 : Nat) ∣ 16 ∧
    innerRecordSize 8 8 16 16 ≤ 32 :=
  ⟨by decide, by decide, by decide, by decide,
    c2_combined_layout_amended 8 8 16 16 { size := 32, align := 16 } (by decide)
      (by decide) (by decide) (by decide) (Or.inr (by decide))⟩

theorem removeB_cons_self (n : Nat) (v : BlockVal) (ps : List (Nat × BlockVal)) :
    removeB ((n, v) :: ps) n = removeB ps n := by
  simp [removeB]

/-- C8: for every typed pointer, erasing it (`ErasedPtr::new` or
`ErasedNonNull::new`) and reifying with the same type returns a pointer equal
to the original in both its data address and its shape metadata, and
reification never fails (it always produces a pointer). -/
theorem c8_eptr_roundtrip (τ : ETy) (addr mv : Nat) (s : St) :
    (ErasedPtr.reify_ptr (ErasedPtr.new τ addr mv s).1 (ErasedPtr.new τ addr mv s).2 =
        some (addr, mv) ∧
      ErasedPtr.reify_ptr_mut (ErasedPtr.new τ addr mv s).1 (ErasedPtr.new τ addr mv s).2 =
        some (addr, mv)) ∧
    ErasedNonNull.reify_ptr (ErasedNonNull.new τ addr mv s).1
        (ErasedNonNull.new τ addr mv s).2 = some (addr, mv) := by
  refine ⟨⟨?_, ?_⟩, ?_⟩ <;>
    simp [ErasedPtr.new, ErasedPtr.reify_ptr, ErasedPtr.reify_ptr_mut, ErasedNonNull.new,
      ErasedNonNull.reify_ptr, St.alloc, Heap.alloc, Heap.read, lookupB]

/-- C5: destroying a non-owning erased pointer (`ErasedPtr` or
`ErasedNonNull`) frees only the heap-allocated one-element shape-descriptor
cell: after the drop the cell is gone, every other address reads unchanged,
and no value destructor has run. -/
theorem c5_eptr_drop_frees_only_cell (ep : ErasedPtr) (np : ErasedNonNull) (s : St)
    (a : Nat) (ha1 : a ≠ ep.meta) (ha2 : a ≠ np.meta) :
    ((ErasedPtr.dropHandle ep s).heap.read a = s.heap.read a ∧
      (ErasedPtr.dropHandle ep s).heap.read ep.meta = none ∧
      (ErasedPtr.dropHandle ep s).finalized = s.finalized) ∧
    ((ErasedNonNull.dropHandle np s).heap.read a = s.heap.read a ∧
      (ErasedNonNull.dropHandle np s).heap.read np.meta = none ∧
      (ErasedNonNull.dropHandle np s).finalized = s.finalized) :=
  ⟨⟨lookupB_removeB_ne ha1 _, lookupB_removeB_self _ _, rfl⟩,
    ⟨lookupB_removeB_ne ha2 _, lookupB_removeB_self _ _, rfl⟩⟩

/-- A concrete `ErasedPtr` handle (null data pointer, cell at address 1). -/
def ep0 : ErasedPtr := { data := 0, meta := 1, dropTy := sliceTy }

/-- A concrete `ErasedNonNull` handle. -/
def np0 : ErasedNonNull := { data := 1, meta := 1, dropTy := sliceTy }

/-- C5 witness: dropping the concrete handles over the concrete heap `st1`
leaves address 5 unchanged, removes the cells, and runs no destructor. -/
theorem c5_eptr_drop_witness :
    (5 : Nat) ≠ ep0.meta ∧ (5 : Nat) ≠ np0.meta ∧
    (((ErasedPtr.dropHandle ep0 st1).heap.read 5 = st1.heap.read 5 ∧
        (ErasedPtr.dropHandle ep0 st1).heap.read ep0.meta = none ∧
        (ErasedPtr.dropHandle ep0 st1).finalized = st1.finalized) ∧
      ((ErasedNonNull.dropHandle np0 st1).heap.read 5 = st1.heap.read 5 ∧
        (ErasedNonNull.dropHandle np0 st1).heap.read np0.meta = none ∧
        (ErasedNonNull.dropHandle np0 st1).finalized = st1.finalized)) :=
  ⟨by decide, by decide,
    c5_eptr_drop_frees_only_cell ep0 np0 st1 5 (by decide) (by decide)⟩

/-- C9: the `ThinErasedBox` construction path deallocates the discarded
source allocation only when its size is nonzero, so it never passes a
zero-size layout to `dealloc`: every layout it adds to the dealloc trace has
nonzero size. -/
theorem c9_thin_new_no_zero_size_dealloc (τ : ETy) (meta : Nat) (bytes : List Nat)
    (s : St) (l : Layout) (hl : l ∈ (ThinErasedBox.new τ meta bytes s).2.deallocs) :
    l ∈ s.deallocs ∨ l.size ≠ 0 := by
  unfold ThinErasedBox.new InnerData.new boxNew St.alloc St.dealloc at hl
  by_cases hvs : τ.sizeOfVal meta = 0
  · simp only [hvs, ne_eq, not_true_eq_false, if_false, reduceIte] at hl
    exact Or.inl hl
  · simp only [hvs, ne_eq, not_false_eq_true, if_true, reduceIte, List.mem_cons] at hl
    rcases hl with rfl | hl
    · exact Or.inr hvs
    · exact Or.inl hl

/-- C9 witness: erasing a one-element slice-like value records exactly the
4-byte source deallocation, whose size is nonzero. -/
theorem c9_thin_new_witness :
    ({ size := 4, align := 4 } : Layout) ∈
      (ThinErasedBox.new sliceTy 1 [1, 2, 3, 4] st0).2.deallocs ∧
    (({ size := 4, align := 4 } : Layout) ∈ st0.deallocs ∨
      ({ size := 4, align := 4 } : Layout).size ≠ 0) :=
  ⟨by decide, c9_thin_new_no_zero_size_dealloc sliceTy 1 [1, 2, 3, 4] st0
    { size := 4, align := 4 } (by decide)⟩

/-- C10: `ErasedPtr` accepts a null data pointer: construction from a null
pointer succeeds, `raw_ptr` returns the null pointer unchanged, a fresh
descriptor cell is heap-allocated (it was not present before, and is present,
holding the metadata, after), the descriptor-cell pointer is non-null, and
destruction of the handle frees exactly that cell, restoring every address to
its prior contents. -/
theorem c10_eptr_null_data (τ : ETy) (mv : Nat) (s : St) (hwf : s.heap.wf) :
    (ErasedPtr.new τ 0 mv s).1.data = 0 ∧
    ErasedPtr.raw_ptr (ErasedPtr.new τ 0 mv s).1 = 0 ∧
    (ErasedPtr.new τ 0 mv s).1.meta ≠ 0 ∧
    s.heap.read (ErasedPtr.new τ 0 mv s).1.meta = none ∧
    (ErasedPtr.new τ 0 mv s).2.heap.read (ErasedPtr.new τ 0 mv s).1.meta =
      some (.cell mv) ∧
    ∀ a, (ErasedPtr.dropHandle (ErasedPtr.new τ 0 mv s).1
        (ErasedPtr.new τ 0 mv s).2).heap.read a = s.heap.read a := by
  refine ⟨rfl, rfl, Nat.succ_ne_zero _, ?_, ?_, ?_⟩
  · exact lookupB_none_of_big (fun p hp => (hwf p hp).2) (Nat.lt_succ_self _)
  · exact lookupB_cons_self _ _ _
  · intro a
    show lookupB (removeB ((s.heap.next + 1, BlockVal.cell mv) :: s.heap.blocks)
      (s.heap.next + 1)) a = lookupB s.heap.blocks a
    rw [removeB_cons_self]
    by_cases hcase : a = s.heap.next + 1
    · subst hcase
      rw [lookupB_removeB_self]
      exact (lookupB_none_of_big (fun p hp => (hwf p hp).2) (Nat.lt_succ_self _)).symm
    · exact lookupB_removeB_ne hcase _

/-- C10 witness: over the concrete well-formed heap `st1`. -/
theorem c10_eptr_null_data_witness :
    st1.heap.wf ∧
    ((ErasedPtr.new sliceTy 0 3 st1).1.data = 0 ∧
      ErasedPtr.raw_ptr (ErasedPtr.new sliceTy 0 3 st1).1 = 0 ∧
      (ErasedPtr.new sliceTy 0 3 st1).1.meta ≠ 0 ∧
      st1.heap.read (ErasedPtr.new sliceTy 0 3 st1).1.meta = none ∧
      (ErasedPtr.new sliceTy 0 3 st1).2.heap.read (ErasedPtr.new sliceTy 0 3 st1).1.meta =
        some (.cell 3) ∧
      ∀ a, (ErasedPtr.dropHandle (ErasedPtr.new sliceTy 0 3 st1).1
          (ErasedPtr.new sliceTy 0 3 st1).2).heap.read a = st1.heap.read a) :=
  ⟨by unfold Heap.wf; decide, c10_eptr_null_data sliceTy 3 st1 (by unfold Heap.wf; decide)⟩

/-- C6: erasing and reifying a zero-size value succeeds and yields a valid,
non-null, correctly aligned handle: the thin container's combined record has
nonzero size even for a zero-size value, the handle pointer is non-null, and
reify-to-owned substitutes a non-null pointer whose address equals the
required alignment instead of calling the allocator (the bump counter is
unchanged); the reified box observably holds the zero-size value. -/
theorem c6_zero_size_value (τ : ETy) (meta : Nat) (s : St)
    (hz : τ.sizeOfVal meta = 0) (ha : 0 < τ.alignOfVal meta) :
    0 < (τ.allocLayout meta).size ∧
    (ThinErasedBox.new τ meta [] s).1.inner ≠ 0 ∧
    ∃ bv s2,
      ThinErasedBox.reify_box τ (ThinErasedBox.new τ meta [] s).1
          (ThinErasedBox.new τ meta [] s).2 = some (bv, s2) ∧
      bv.ptr = τ.alignOfVal meta ∧ bv.ptr ≠ 0 ∧ τ.alignOfVal meta ∣ bv.ptr ∧
      s2.heap.next = (ThinErasedBox.new τ meta [] s).2.heap.next ∧
      BoxVal.value τ bv s2.heap = some [] := by
  refine ⟨?_, Nat.succ_ne_zero _, ?_⟩
  · have h8 : (8 : Nat) ≤ max (max commonAlign τ.metaAlign) (τ.alignOfVal meta) :=
      le_trans (le_max_left commonAlign τ.metaAlign)
        (le_max_left (max commonAlign τ.metaAlign) (τ.alignOfVal meta))
    have hpos : 0 < max (max commonAlign τ.metaAlign) (τ.alignOfVal meta) := by omega
    have hle := le_alignUp hpos (commonSize + τ.metaSize + τ.sizeOfVal meta)
    have : 0 < commonSize + τ.metaSize + τ.sizeOfVal meta := by
      unfold commonSize
      omega
    calc 0 < commonSize + τ.metaSize + τ.sizeOfVal meta := this
      _ ≤ (τ.allocLayout meta).size := hle
  · simp only [ThinErasedBox.new, boxNew, InnerData.new, St.alloc, St.dealloc,
      Heap.alloc, Heap.free, Heap.read, ThinErasedBox.reify_box, hz, ne_eq,
      not_true_eq_false, if_false, reduceIte, lookupB_cons_self]
    refine ⟨_, _, rfl, rfl, ?_, dvd_rfl, rfl, ?_⟩
    · show τ.alignOfVal meta ≠ 0
      omega
    · simp [BoxVal.value, hz]

/-- C6 witness: a concrete zero-size type over the empty state. -/
theorem c6_zero_size_value_witness :
    zstTy.sizeOfVal 0 = 0 ∧ 0 < zstTy.alignOfVal 0 ∧
    (0 < (zstTy.allocLayout 0).size ∧
      (ThinErasedBox.new zstTy 0 [] st0).1.inner ≠ 0 ∧
      ∃ bv s2,
        ThinErasedBox.reify_box zstTy (ThinErasedBox.new zstTy 0 [] st0).1
            (ThinErasedBox.new zstTy 0 [] st0).2 = some (bv, s2) ∧
        bv.ptr = zstTy.alignOfVal 0 ∧ bv.ptr ≠ 0 ∧ zstTy.alignOfVal 0 ∣ bv.ptr ∧
        s2.heap.next = (ThinErasedBox.new zstTy 0 [] st0).2.heap.next ∧
        BoxVal.value zstTy bv s2.heap = some []) :=
  ⟨rfl, by decide, c6_zero_size_value zstTy 0 st0 rfl (by decide)⟩

theorem removeB_cons_ne {n a : Nat} (h : n ≠ a) (v : BlockVal)
    (ps : List (Nat × BlockVal)) : removeB ((n, v) :: ps) a = (n, v) :: removeB ps a := by
  simp [removeB, h]

/-- C1: for every value (metadata plus bytes of the matching length, covering
sized values and variable-size slices, strings and trait objects alike),
erasing it into an owning container (`ErasedBox` or `ThinErasedBox`) and then
reifying to owned with the same type yields a box observably equal to the
original value: same metadata, same bytes. -/
theorem c1_erase_reify_roundtrip (τ : ETy) (meta : Nat) (bytes : List Nat) (s : St)
    (hlen : bytes.length = τ.sizeOfVal meta) :
    ((ErasedBox.reify_box τ (ErasedBox.new τ meta bytes s).1
        (ErasedBox.new τ meta bytes s).2).1.meta = meta ∧
      BoxVal.value τ
        (ErasedBox.reify_box τ (ErasedBox.new τ meta bytes s).1
          (ErasedBox.new τ meta bytes s).2).1
        (ErasedBox.reify_box τ (ErasedBox.new τ meta bytes s).1
          (ErasedBox.new τ meta bytes s).2).2.heap = some bytes) ∧
    ∃ bv s2,
      ThinErasedBox.reify_box τ (ThinErasedBox.new τ meta bytes s).1
          (ThinErasedBox.new τ meta bytes s).2 = some (bv, s2) ∧
      bv.meta = meta ∧ BoxVal.value τ bv s2.heap = some bytes := by
  have hne1 : s.heap.next + 1 ≠ s.heap.next + 1 + 1 := by omega
  have hne2 : s.heap.next + 1 + 1 ≠ s.heap.next + 1 := by omega
  have hne3 : s.heap.next + 1 + 1 ≠ s.heap.next + 1 + 1 + 1 := by omega
  have hne4 : s.heap.next + 1 + 1 + 1 ≠ s.heap.next + 1 + 1 := by omega
  constructor
  · constructor
    · simp [ErasedBox.new, boxNew, ErasedBox.reify_box, St.alloc, St.dealloc,
        Heap.alloc, Heap.read, lookupB]
    · by_cases hz : τ.sizeOfVal meta = 0
      · have hb : bytes = [] := List.length_eq_zero.mp (hz ▸ hlen)
        subst hb
        simp [ErasedBox.new, boxNew, ErasedBox.reify_box, BoxVal.value, St.alloc,
          St.dealloc, Heap.alloc, Heap.free, Heap.read, lookupB, hz]
      · simp [ErasedBox.new, boxNew, ErasedBox.reify_box, BoxVal.value, St.alloc,
          St.dealloc, Heap.alloc, Heap.free, Heap.read, lookupB, removeB,
          hz, hne1, hne2]
        omega
  · by_cases hz : τ.sizeOfVal meta = 0
    · have hb : bytes = [] := List.length_eq_zero.mp (hz ▸ hlen)
      subst hb
      simp only [ThinErasedBox.new, boxNew, InnerData.new, St.alloc, St.dealloc,
        Heap.alloc, Heap.free, Heap.read, ThinErasedBox.reify_box, hz, ne_eq,
        not_true_eq_false, if_false, reduceIte, lookupB_cons_self]
      exact ⟨_, _, rfl, rfl, by simp [BoxVal.value, hz]⟩
    · simp only [ThinErasedBox.new, boxNew, InnerData.new, St.alloc, St.dealloc,
        Heap.alloc, Heap.free, Heap.read, ThinErasedBox.reify_box, hz, ne_eq,
        not_false_eq_true, if_true, reduceIte, lookupB_cons_self,
        removeB_cons_ne hne2, removeB_cons_self]
      refine ⟨_, _, rfl, rfl, ?_⟩
      simp only [BoxVal.value, Heap.read, hz, ne_eq, if_false, reduceIte,
        removeB_cons_ne hne4, lookupB_cons_self, List.take_take, Nat.min_self]
      rw [← hlen, List.take_length]

/-- C1 witness: round trip of the concrete slice value `[1, 2, 3, 4]`
(metadata 1, four bytes) through both containers over the empty state. -/
theorem c1_erase_reify_roundtrip_witness :
    ([1, 2, 3, 4] : List Nat).length = sliceTy.sizeOfVal 1 ∧
    (((ErasedBox.reify_box sliceTy (ErasedBox.new sliceTy 1 [1, 2, 3, 4] st0).1
        (ErasedBox.new sliceTy 1 [1, 2, 3, 4] st0).2).1.meta = 1 ∧
      BoxVal.value sliceTy
        (ErasedBox.reify_box sliceTy (ErasedBox.new sliceTy 1 [1, 2, 3, 4] st0).1
          (ErasedBox.new sliceTy 1 [1, 2, 3, 4] st0).2).1
        (ErasedBox.reify_box sliceTy (ErasedBox.new sliceTy 1 [1, 2, 3, 4] st0).1
          (ErasedBox.new sliceTy 1 [1, 2, 3, 4] st0).2).2.heap = some [1, 2, 3, 4]) ∧
    ∃ bv s2,
      ThinErasedBox.reify_box sliceTy (ThinErasedBox.new sliceTy 1 [1, 2, 3, 4] st0).1
          (ThinErasedBox.new sliceTy 1 [1, 2, 3, 4] st0).2 = some (bv, s2) ∧
      bv.meta = 1 ∧ BoxVal.value sliceTy bv s2.heap = some [1, 2, 3, 4]) :=
  ⟨by decide, c1_erase_reify_roundtrip sliceTy 1 [1, 2, 3, 4] st0 (by decide)⟩

/-- C3: across the whole lifecycle of an owning handle, wide or thin, the
value's destructor runs exactly once: erasing then normal teardown performs
one finalize, and erasing, reifying-to-owned (which skips the handle's own
teardown via `mem::forget`), then letting the reified box's own destruction
run also performs exactly one finalize in total. -/
theorem c3_finalizer_exactly_once (τ : ETy) (meta : Nat) (bytes : List Nat) (s : St) :
    (ErasedBox.dropHandle (ErasedBox.new τ meta bytes s).1
        (ErasedBox.new τ meta bytes s).2).finalized = s.finalized + 1 ∧
    (BoxVal.drop τ
        (ErasedBox.reify_box τ (ErasedBox.new τ meta bytes s).1
          (ErasedBox.new τ meta bytes s).2).1
        (ErasedBox.reify_box τ (ErasedBox.new τ meta bytes s).1
          (ErasedBox.new τ meta bytes s).2).2).finalized = s.finalized + 1 ∧
    (ThinErasedBox.dropHandle (ThinErasedBox.new τ meta bytes s).1
        (ThinErasedBox.new τ meta bytes s).2).finalized = s.finalized + 1 ∧
    ∃ bv s2,
      ThinErasedBox.reify_box τ (ThinErasedBox.new τ meta bytes s).1
          (ThinErasedBox.new τ meta bytes s).2 = some (bv, s2) ∧
      (BoxVal.drop τ bv s2).finalized = s.finalized + 1 := by
  have hne2 : s.heap.next + 1 + 1 ≠ s.heap.next + 1 := by omega
  refine ⟨rfl, rfl, ?_, ?_⟩ <;> by_cases hz : τ.sizeOfVal meta = 0
  · simp [ThinErasedBox.new, boxNew, InnerData.new, St.alloc, St.dealloc,
      Heap.alloc, Heap.free, Heap.read, ThinErasedBox.dropHandle, St.runDtor,
      lookupB, removeB, hz]
  · simp [ThinErasedBox.new, boxNew, InnerData.new, St.alloc, St.dealloc,
      Heap.alloc, Heap.free, Heap.read, ThinErasedBox.dropHandle, St.runDtor,
      lookupB, removeB, hz, hne2]
  · simp only [ThinErasedBox.new, boxNew, InnerData.new, St.alloc, St.dealloc,
      Heap.alloc, Heap.free, Heap.read, ThinErasedBox.reify_box, hz, ne_eq,
      not_true_eq_false, if_false, reduceIte, lookupB_cons_self]
    exact ⟨_, _, rfl, rfl⟩
  · simp only [ThinErasedBox.new, boxNew, InnerData.new, St.alloc, St.dealloc,
      Heap.alloc, Heap.free, Heap.read, ThinErasedBox.reify_box, hz, ne_eq,
      not_false_eq_true, if_true, reduceIte, lookupB_cons_self,
      removeB_cons_ne hne2, removeB_cons_self]
    exact ⟨_, _, rfl, rfl⟩

/-- C7: for an owning handle (wide or thin) holding a value, a write
performed through a mutable reification is observed by every subsequent
reification of the same handle: reifying a reference afterwards reads back
the written value, and reifying to owned afterwards yields a box holding the
written value. -/
theorem c7_mutation_visible (τ : ETy) (meta : Nat) (bytes w : List Nat) (s : St)
    (hw : w.length = τ.sizeOfVal meta) :
    (ErasedBox.reify_ref τ (ErasedBox.new τ meta bytes s).1
        (ErasedBox.write (ErasedBox.new τ meta bytes s).1 w
          (ErasedBox.new τ meta bytes s).2) = some (meta, w) ∧
      BoxVal.value τ
        (ErasedBox.reify_box τ (ErasedBox.new τ meta bytes s).1
          (ErasedBox.write (ErasedBox.new τ meta bytes s).1 w
            (ErasedBox.new τ meta bytes s).2)).1
        (ErasedBox.reify_box τ (ErasedBox.new τ meta bytes s).1
          (ErasedBox.write (ErasedBox.new τ meta bytes s).1 w
            (ErasedBox.new τ meta bytes s).2)).2.heap = some w) ∧
    (ThinErasedBox.reify_ref τ (ThinErasedBox.new τ meta bytes s).1
        (ThinErasedBox.write (ThinErasedBox.new τ meta bytes s).1 w
          (ThinErasedBox.new τ meta bytes s).2) = some (meta, w) ∧
      ∃ bv s2,
        ThinErasedBox.reify_box τ (ThinErasedBox.new τ meta bytes s).1
            (ThinErasedBox.write (ThinErasedBox.new τ meta bytes s).1 w
              (ThinErasedBox.new τ meta bytes s).2) = some (bv, s2) ∧
        bv.meta = meta ∧ BoxVal.value τ bv s2.heap = some w) := by
  have hne1 : s.heap.next + 1 ≠ s.heap.next + 1 + 1 := by omega
  have hne2 : s.heap.next + 1 + 1 ≠ s.heap.next + 1 := by omega
  have hne4 : s.heap.next + 1 + 1 + 1 ≠ s.heap.next + 1 + 1 := by omega
  refine ⟨⟨?_, ?_⟩, ?_, ?_⟩
  · simp only [ErasedBox.new, boxNew, ErasedBox.write, ErasedBox.reify_ref, St.alloc,
      Heap.alloc, Heap.setBytes, Heap.read, setB, lookupB, BlockVal.withBytes,
      hne1, hne2, if_pos, if_neg, ite_true, ite_false, reduceIte, Option.some.injEq]
    rw [← hw, List.take_length]
  · by_cases hz : τ.sizeOfVal meta = 0
    · have hb : w = [] := List.length_eq_zero.mp (hz ▸ hw)
      subst hb
      simp [ErasedBox.new, boxNew, ErasedBox.write, ErasedBox.reify_box, BoxVal.value,
        St.alloc, St.dealloc, Heap.alloc, Heap.free, Heap.setBytes, Heap.read, setB,
        lookupB, removeB, BlockVal.withBytes, hz, hne1, hne2]
    · simp [ErasedBox.new, boxNew, ErasedBox.write, ErasedBox.reify_box, BoxVal.value,
        St.alloc, St.dealloc, Heap.alloc, Heap.free, Heap.setBytes, Heap.read, setB,
        lookupB, removeB, BlockVal.withBytes, hz, hne1, hne2]
      omega
  · by_cases hz : τ.sizeOfVal meta = 0
    · have hb : w = [] := List.length_eq_zero.mp (hz ▸ hw)
      subst hb
      simp [ThinErasedBox.new, boxNew, InnerData.new, ThinErasedBox.write,
        ThinErasedBox.reify_ref, St.alloc, St.dealloc, Heap.alloc, Heap.free,
        Heap.setBytes, Heap.read, setB, lookupB, removeB, BlockVal.withBytes, hz]
    · simp [ThinErasedBox.new, boxNew, InnerData.new, ThinErasedBox.write,
        ThinErasedBox.reify_ref, St.alloc, St.dealloc, Heap.alloc, Heap.free,
        Heap.setBytes, Heap.read, setB, lookupB, removeB, BlockVal.withBytes,
        hz, hne1, hne2]
      omega
  · by_cases hz : τ.sizeOfVal meta = 0
    · have hb : w = [] := List.length_eq_zero.mp (hz ▸ hw)
      subst hb
      simp only [ThinErasedBox.new, boxNew, InnerData.new, ThinErasedBox.write,
        ThinErasedBox.reify_box, St.alloc, St.dealloc, Heap.alloc, Heap.free,
        Heap.setBytes, Heap.read, setB, BlockVal.withBytes, hz, ne_eq,
        not_true_eq_false, if_false, reduceIte, lookupB_cons_self]
      exact ⟨_, _, rfl, rfl, by simp [BoxVal.value, hz]⟩
    · simp only [ThinErasedBox.new, boxNew, InnerData.new, ThinErasedBox.write,
        ThinErasedBox.reify_box, St.alloc, St.dealloc, Heap.alloc, Heap.free,
        Heap.setBytes, Heap.read, setB, BlockVal.withBytes, hz, ne_eq,
        not_false_eq_true, if_true, reduceIte, lookupB_cons_self,
        removeB_cons_ne hne2, removeB_cons_self]
      refine ⟨_, _, rfl, rfl, ?_⟩
      simp only [BoxVal.value, Heap.read, hz, ne_eq, if_false, reduceIte,
        removeB_cons_ne hne4, lookupB_cons_self, List.take_take, Nat.min_self]
      rw [← hw, List.take_length]

/-- C7 witness: write `[5, 6, 7, 8]` over the erased `[1, 2, 3, 4]` in both
containers over the empty state; every later reification reads it back. -/
theorem c7_mutation_visible_witness :
    ([5, 6, 7, 8] : List Nat).length = sliceTy.sizeOfVal 1 ∧
    (ErasedBox.reify_ref sliceTy (ErasedBox.new sliceTy 1 [1, 2, 3, 4] st0).1
        (ErasedBox.write (ErasedBox.new sliceTy 1 [1, 2, 3, 4] st0).1 [5, 6, 7, 8]
          (ErasedBox.new sliceTy 1 [1, 2, 3, 4] st0).2) = some (1, [5, 6, 7, 8]) ∧
      BoxVal.value sliceTy
        (ErasedBox.reify_box sliceTy (ErasedBox.new sliceTy 1 [1, 2, 3, 4] st0).1
          (ErasedBox.write (ErasedBox.new sliceTy 1 [1, 2, 3, 4] st0).1 [5, 6, 7, 8]
            (ErasedBox.new sliceTy 1 [1, 2, 3, 4] st0).2)).1
        (ErasedBox.reify_box sliceTy (ErasedBox.new sliceTy 1 [1, 2, 3, 4] st0).1
          (ErasedBox.write (ErasedBox.new sliceTy 1 [1, 2, 3, 4] st0).1 [5, 6, 7, 8]
            (ErasedBox.new sliceTy 1 [1, 2, 3, 4] st0).2)).2.heap = some [5, 6, 7, 8]) ∧
    (ThinErasedBox.reify_ref sliceTy (ThinErasedBox.new sliceTy 1 [1, 2, 3, 4] st0).1
        (ThinErasedBox.write (ThinErasedBox.new sliceTy 1 [1, 2, 3, 4] st0).1 [5, 6, 7, 8]
          (ThinErasedBox.new sliceTy 1 [1, 2, 3, 4] st0).2) = some (1, [5, 6, 7, 8]) ∧
      ∃ bv s2,
        ThinErasedBox.reify_box sliceTy (ThinErasedBox.new sliceTy 1 [1, 2, 3, 4] st0).1
            (ThinErasedBox.write (ThinErasedBox.new sliceTy 1 [1, 2, 3, 4] st0).1
              [5, 6, 7, 8] (ThinErasedBox.new sliceTy 1 [1, 2, 3, 4] st0).2) =
          some (bv, s2) ∧
        bv.meta = 1 ∧ BoxVal.value sliceTy bv s2.heap = some [5, 6, 7, 8]) :=
  ⟨by decide, c7_mutation_visible sliceTy 1 [1, 2, 3, 4] [5, 6, 7, 8] st0 (by decide)⟩
